import Mathlib

set_option maxHeartbeats 1000000

/-!
Verification of the freva-gpt-backend RAG service core against its
natural-language specification.

The embedding below translates, from the Python sources:
  * `src/tool_calls/rag/header_gate.py` — the ASGI tenant gate
    (`make_header_gate` / `HeaderCaptureASGI.__call__`);
  * `src/tool_calls/rag/server.py` — the connection cache (`_client_for`
    under `functools.lru_cache(maxsize=32)`), the embedding client
    (`get_embedding`), record construction (`create_db_entry_for_document`),
    ingestion (`store_documents_in_mongodb`), querying (`get_query_results`)
    and the tool endpoint (`get_context_from_resources`).

Python string operations used by that code (`str.lower`, `str.strip`,
`str.startswith`, slicing `s[7:]`, substring membership `a in b`) are
embedded as functions on Lean `String`s, working on the underlying
character list.  Header values are bytes decoded as latin-1, so every
character has code point < 256; `pyLowerChar` covers exactly the latin-1
case mapping Python applies on that range, and `pyIsSpace` the latin-1
whitespace that `str.strip()` removes.
-/

/-- Python `str.lower` on a single latin-1 character: ASCII `A`–`Z` and the
latin-1 uppercase block `À`–`Þ` (except `×`) map 0x20 upward. -/
def pyLowerChar (c : Char) : Char :=
  if 'A' ≤ c && c ≤ 'Z' then Char.ofNat (c.toNat + 32)
  else if 0xC0 ≤ c.toNat && c.toNat ≤ 0xDE && c.toNat != 0xD7 then Char.ofNat (c.toNat + 32)
  else c

/-- Python `str.lower` on a latin-1 decoded string. -/
def pyLower (s : String) : String := String.mk (s.toList.map pyLowerChar)

/-- The latin-1 characters Python's `str.strip()` treats as whitespace. -/
def pyIsSpace (c : Char) : Bool :=
  c == ' ' || c == '\t' || c == '\n' || c == '\r' || c == '\x0b' || c == '\x0c' ||
  c == '\x1c' || c == '\x1d' || c == '\x1e' || c == '\x1f' || c == '\x85' || c == '\xa0'

/-- `str.strip()` on the character list: drop whitespace from both ends. -/
def pyStripList (l : List Char) : List Char :=
  ((l.dropWhile pyIsSpace).reverse.dropWhile pyIsSpace).reverse

/-- Python `str.strip()` (no argument form). -/
def pyStrip (s : String) : String := String.mk (pyStripList s.toList)

/-- Python `s.startswith(pre)`. -/
def pyStarts (s pre : String) : Bool := pre.toList.isPrefixOf s.toList

/-- Python slicing `s[n:]`. -/
def pyDrop (n : Nat) (s : String) : String := String.mk (s.toList.drop n)

/-- Python substring membership `needle in hay`. -/
def pyContainsSub (needle hay : String) : Bool :=
  (List.range (hay.toList.length + 1)).any (fun i => needle.toList.isPrefixOf (hay.toList.drop i))

/-- Python truthiness of an `Optional[str]`: `None` and `""` are falsy. -/
def pyTruthy : Option String → Bool
  | none => false
  | some s => !(s == "")

/-- The dict comprehension
`{k.decode("latin-1").lower(): v.decode("latin-1") for k, v in scope["headers"]}`
followed by `.get(key)`: keys are lowercased and a later duplicate
overrides an earlier one, so `.get` returns the value of the last
occurrence of the (case-insensitively matched) key. -/
def pyDictGet (hs : List (String × String)) (k : String) : Option String :=
  ((hs.map (fun p => (pyLower p.1, p.2))).reverse.find? (fun p => p.1 == k)).map (·.2)

/-! ## The tenant gate (`header_gate.py`) -/

/-- The slice of an ASGI `scope` the gate looks at: `scope["type"]`,
`scope["path"]` and `scope["headers"]` (decoded latin-1). -/
structure Request where
  scopeType : String
  path : String
  headers : List (String × String)
deriving DecidableEq, Repr

/-- `MONGODB_URI_HDR = "mongodb-uri"` from `header_gate.py`. -/
def MONGODB_URI_HDR : String := "mongodb-uri"

/-- What `HeaderCaptureASGI.__call__` does with one request to the tool
path, as a pure outcome:
  * `passthrough hs` — the inner app is called on an unmodified (or, on the
    bearer path, sanitized) scope without any credential handling;
  * `rejected status errorCode` — the gate short-circuits: it sends one
    `http.response.start` with that status and one body event whose JSON-RPC
    error object carries that code, and never calls the inner app;
  * `forwarded cred hs` — the gate publishes `cred` into the ContextVar and
    calls the inner app on the scope whose headers are `hs`. -/
inductive GateOutcome where
  | passthrough (headers : List (String × String))
  | rejected (status : Nat) (errorCode : Int)
  | forwarded (cred : String) (headers : List (String × String))
deriving DecidableEq, Repr

/-- Credential extraction of `HeaderCaptureASGI.__call__` (lines 40–57):
read `mongodb-uri` from the normalized header dict; if that is falsy, try
the `authorization` header, and when it is truthy and its lowercase form
starts with `"bearer "`, take `raw_auth[7:].strip()` as the credential and
rebuild `scope["headers"]` without any `authorization` entry.  Returns the
extracted value and the headers the inner app would see. -/
def extract_credential (headers : List (String × String)) :
    Option String × List (String × String) :=
  let v := pyDictGet headers MONGODB_URI_HDR
  if pyTruthy v then (v, headers)
  else
    match pyDictGet headers "authorization" with
    | some rawAuth =>
      if !(rawAuth == "") && pyStarts (pyLower rawAuth) "bearer " then
        (some (pyStrip (pyDrop 7 rawAuth)),
         headers.filter (fun p => !(pyLower p.1 == "authorization")))
      else (v, headers)
    | none => (v, headers)

/-- `HeaderCaptureASGI.__call__` as a function from the request to the
gate's outcome.  Non-HTTP scopes and paths other than `mcp_path` pass
through untouched; otherwise the credential is extracted and the request is
rejected (`status=400`, JSON-RPC error code `-32600`) unless the value is
truthy and starts with `mongodb://` or `mongodb+srv://`. -/
def header_gate (mcp_path : String) (req : Request) : GateOutcome :=
  if !(req.scopeType == "http") then .passthrough req.headers
  else if !(req.path == mcp_path) then .passthrough req.headers
  else
    let (v, hs) := extract_credential req.headers
    match v with
    | some s =>
      if !(s == "") && (pyStarts s "mongodb://" || pyStarts s "mongodb+srv://") then
        .forwarded s hs
      else .rejected 400 (-32600)
    | none => .rejected 400 (-32600)

/-! ## ContextVar scoping semantics (`header_gate.py` lines 84–89)

The success path of the gate runs

```python
tok_v = mongo_ctx.set(v)
try:
    return await self.app(scope, receive, send)
finally:
    mongo_ctx.reset(tok_v)
```

We embed the ContextVar as explicit state of type `Option String`
(the current value of `mongo_uri_ctx`), Python computations as state
transformers that either return or raise, and `try/finally` and the
`ContextVar.set`/`reset` pair by their documented semantics: `set` returns
a token recording the prior value, `reset tok` restores that prior value. -/

/-- The value of the `mongo_uri_ctx` ContextVar. -/
abbrev Ctx := Option String

/-- Outcome of a Python computation: normal return or a raised exception. -/
inductive PyResult (α : Type) where
  | ok (a : α)
  | exn (msg : String)
deriving DecidableEq, Repr

/-- A Python computation over the ContextVar state. -/
def PyM (α : Type) := Ctx → PyResult α × Ctx

/-- `mongo_ctx.set(v)`: sets the value, returns the reset token, which
records the prior value. -/
def ctxvar_set (v : String) : PyM Ctx := fun s => (.ok s, some v)

/-- `mongo_ctx.reset(tok)`: restores the value recorded in the token. -/
def ctxvar_reset (tok : Ctx) : PyM Unit := fun _ => (.ok (), tok)

/-- Python `try: body finally: fin`.  `fin` always runs; a normal result of
`body` survives unless `fin` raises, and an exception of `body` propagates
after `fin` (replaced by `fin`'s exception if `fin` itself raises). -/
def try_finally (body : PyM α) (fin : PyM Unit) : PyM α := fun s =>
  match body s with
  | (.ok a, s1) =>
    match fin s1 with
    | (.ok _, s2) => (.ok a, s2)
    | (.exn m, s2) => (.exn m, s2)
  | (.exn m, s1) =>
    match fin s1 with
    | (.ok _, s2) => (.exn m, s2)
    | (.exn m2, s2) => (.exn m2, s2)

/-- The gate's success path around the inner app: `tok_v = mongo_ctx.set(v);
try: await self.app(...) finally: mongo_ctx.reset(tok_v)`. -/
def gate_invoke_inner (v : String) (inner : PyM Unit) : PyM Unit := fun s =>
  match ctxvar_set v s with
  | (.ok tok, s1) => try_finally inner (ctxvar_reset tok) s1
  | (.exn m, s1) => (.exn m, s1)

/-! ## The connection multiplexer (`server.py` lines 39–41)

`_client_for` is a plain constructor call wrapped in
`functools.lru_cache(maxsize=32)`.  We embed the documented `lru_cache`
semantics: a bounded map from the exact credential string to a live handle,
most-recently-used first.  A hit moves the entry to the front and returns
the cached handle; a miss creates a fresh handle (fresh `Nat` identity:
equal numbers model the same underlying `MongoClient` object), inserts it
in front, and when the cache exceeds its capacity drops exactly the last
(least-recently-used) entry, releasing the evicted handle. -/

structure LruState where
  entries : List (String × Nat)
  next : Nat
deriving DecidableEq, Repr

/-- The cache before any `_client_for` call. -/
def emptyLru : LruState := ⟨[], 0⟩

/-- One `_client_for(uri)` call under `lru_cache`: hit returns the cached
handle and refreshes recency; miss allocates handle `next`, inserts it, and
evicts the least-recently-used entry if the capacity is exceeded. -/
def lruAcquire (cap : Nat) (s : LruState) (k : String) : Nat × LruState :=
  match s.entries.find? (fun e => e.1 == k) with
  | some e =>
    (e.2, ⟨(k, e.2) :: s.entries.eraseP (fun e => e.1 == k), s.next⟩)
  | none =>
    let es := (k, s.next) :: s.entries
    (s.next, ⟨if cap < es.length then es.dropLast else es, s.next + 1⟩)

/-- A sequence of `_client_for` calls, returning the final cache state. -/
def acquireAll (cap : Nat) (s : LruState) (ks : List String) : LruState :=
  ks.foldl (fun s k => (lruAcquire cap s k).2) s

/-- The entries produced by acquiring a list of fresh keys in order,
most-recently-used first, with handle identities counted from `n0`. -/
def freshEntries (n0 : Nat) : List String → List (String × Nat)
  | [] => []
  | k :: ks => freshEntries (n0 + 1) ks ++ [(k, n0)]

/-! ## Ingestion (`server.py` lines 50–104) -/

/-- A chunked document as produced by the loader/splitter: `page_content`
plus the metadata fields the ingestion code reads. -/
structure Document where
  source : String
  resource_name : String
  chunk_id : String
  file_hash : String
  embedded_content : String
  page_content : String
deriving DecidableEq, Repr

/-- The record inserted into the `embeddings` collection, with exactly the
keys built by `create_db_entry_for_document`. -/
structure DbEntry where
  resource_type : String
  resource_name : String
  document : String
  chunk_id : String
  file_hash : String
  content : String
  embedded_content : String
  embedding : List Int
deriving DecidableEq, Repr

/-- The embedding client `get_embedding`: a call to the external embedder
that either yields a vector or raises (HTTP error, empty or malformed
`data` payload).  The vector components are modelled as integers; their
numeric values play no role in the claims. -/
abbrev Embedder := String → Except String (List Int)

/-- `create_db_entry_for_document(document)`: builds the record dict; the
`resource_type` is `"example"` iff the substring `".json"` occurs anywhere
in the `source` metadata, else `"document"`; the `embedding` field calls
`get_embedding` on `embedded_content`, the only failure source. -/
def create_db_entry_for_document (embed : Embedder) (d : Document) :
    Except String DbEntry :=
  match embed d.embedded_content with
  | .error e => .error e
  | .ok vec =>
    .ok { resource_type := if pyContainsSub ".json" d.source then "example" else "document"
          resource_name := d.resource_name
          document := d.source
          chunk_id := d.chunk_id
          file_hash := d.file_hash
          content := d.page_content
          embedded_content := d.embedded_content
          embedding := vec }

/-- The `for d in new_documents` loop of `store_documents_in_mongodb`:
builds entries sequentially; the first embedding failure aborts the loop
and propagates. -/
def build_new_entries (embed : Embedder) : List Document → Except String (List DbEntry)
  | [] => .ok []
  | d :: ds =>
    match create_db_entry_for_document embed d with
    | .error e => .error e
    | .ok entry =>
      match build_new_entries embed ds with
      | .error e => .error e
      | .ok es => .ok (entry :: es)

/-- `store_documents_in_mongodb(documents)`: filters the candidate chunks
through the change detector, embeds every surviving chunk, and only then —
and only when there is at least one new entry — performs the single
`insert_many` batch write.  The collection is the list of stored records;
the second component of the result records the `insert_many` calls made
(each element one batch).  An embedding failure raises before any write.
The change detector `get_new_or_changes_documents` is a parameter here
(its own definition is given separately). -/
def store_documents_in_mongodb (embed : Embedder)
    (get_new : List Document → List DbEntry → List Document)
    (docs : List Document) (col : List DbEntry) :
    Except String (List DbEntry × List (List DbEntry)) :=
  let newDocs := get_new docs col
  match build_new_entries embed newDocs with
  | .error e => .error e
  | .ok entries =>
    if entries.isEmpty then .ok (col, [])
    else .ok (col ++ entries, [entries])

/-- Whether a stored record carries the same (resource name, source path,
chunk id) identity and the same content fingerprint as a candidate chunk. -/
def matches_identity_and_hash (d : Document) (r : DbEntry) : Bool :=
  r.resource_name == d.resource_name && r.document == d.source &&
  r.chunk_id == d.chunk_id && r.file_hash == d.file_hash

/-- Modelled from the spec: `get_new_or_changes_documents` lives in
`helpers.py`, which is not under `src/`.  Spec §4.3 (ChangeDetector): a
candidate chunk is included in the output iff no record exists with the
same fingerprint for the same (resource name, source path, chunk id); it
only reads the store. -/
def get_new_or_changes_documents (docs : List Document) (col : List DbEntry) :
    List Document :=
  docs.filter (fun d => !(col.any (fun r => matches_identity_and_hash d r)))

/-! ## The query engine (`server.py` lines 107–153) -/

/-- One hit returned by the `$vectorSearch`/`$project` aggregation. -/
structure QueryHit where
  content : String
  resource_type : String
  resource_name : String
  document : String
  chunk_id : String
  score : Int
deriving DecidableEq, Repr

/-- `col.distinct("resource_type")`: the distinct category values present
in the store. -/
def distinct_resource_types (col : List DbEntry) : List String :=
  (col.map (fun r => r.resource_type)).eraseDups

/-- Modelled from the spec: `postprocessing_query_result` lives in
`helpers.py`, which is not under `src/`.  Spec §4.5: results from all
categories are concatenated into a single textual context, and when no
category yields results the engine returns the "no content found"
sentinel rather than raising. -/
def postprocessing_query_result (results : List (List QueryHit)) : String :=
  let merged := results.flatten
  if merged.isEmpty then "No content found."
  else String.intercalate "\n\n" (merged.map (fun h => h.content))

/-- `get_query_results(query, resource_name)`: embeds the query, runs one
filtered similarity search per distinct `resource_type`, and merges.  The
external `$vectorSearch` aggregation is the parameter `vector_search`
(query vector, resource type, resource name ↦ hits).  The idempotent index
creation `add_vector_search_index_to_db` (a `helpers.py` store side effect)
does not influence the returned value and is not modelled.  The final
`if query_results:` tests the truthiness of the list of per-category result
lists, which is empty iff there are no categories. -/
def get_query_results (embed : Embedder)
    (vector_search : List Int → String → String → List QueryHit)
    (col : List DbEntry) (query resource_name : String) : Except String String :=
  match embed query with
  | .error e => .error e
  | .ok qv =>
    let src_types := distinct_resource_types col
    let query_results := src_types.map (fun t => vector_search qv t resource_name)
    if query_results.isEmpty then .ok "No content found."
    else .ok (postprocessing_query_result query_results)

/-! ## The tool endpoint (`server.py` lines 156–187) -/

/-- `AVAILABLE_LIBRARIES = {"stableclimgen"}`. -/
def AVAILABLE_LIBRARIES : List String := ["stableclimgen"]

/-- `RESOURCE_DIRECTORY = "resources"`. -/
def RESOURCE_DIRECTORY : String := "resources"

/-- `get_context_from_resources(question, resources_to_retrieve_from)`:
rejects an unsupported library with a plain-text message; when
`CLEAR_MONGODB_EMBEDDINGS` is set, touches the collection (which raises
`RuntimeError` when the ContextVar holds no usable URI, as `_collection`
does); rejects a missing source directory (`os.path.isdir`, the parameter
`is_dir`) with a plain-text message; otherwise runs the loader → splitter →
store → query pipeline, abstracted as `run_pipeline`.  `os.path.join` on a
relative library name is directory, separator, name. -/
def get_context_from_resources (clear_flag : Bool) (ctx_uri : Option String)
    (is_dir : String → Bool)
    (run_pipeline : String → String → Except String String)
    (question resources_to_retrieve_from : String) : Except String String :=
  if !(AVAILABLE_LIBRARIES.contains resources_to_retrieve_from) then
    .ok ("Library \x27" ++ resources_to_retrieve_from ++ "\x27 is not supported.")
  else if clear_flag && !(pyTruthy ctx_uri) then
    .error ("Missing required header \x27" ++ MONGODB_URI_HDR ++ "\x27")
  else
    let src_dir := RESOURCE_DIRECTORY ++ "/" ++ resources_to_retrieve_from
    if !(is_dir src_dir) then
      .ok ("Resource directory not found: " ++ src_dir)
    else run_pipeline question resources_to_retrieve_from

/-! ## Concrete inputs used by the witness theorems -/

/-- The claim-level acceptance predicate of the gate, stated independently
of the code: the extracted value is a non-empty string starting with one of
the accepted store URI schemes. -/
def AcceptedCredential (v : Option String) : Prop :=
  ∃ s, v = some s ∧ s ≠ "" ∧
    ((∃ t, s = "mongodb://" ++ t) ∨ (∃ t, s = "mongodb+srv://" ++ t))

/-- A request carrying a valid credential in the dedicated header. -/
def reqDedicated : Request := ⟨"http", "/mcp", [("mongodb-uri", "mongodb+srv://w")]⟩

/-- The same credential carried only as a bearer token. -/
def reqBearer : Request := ⟨"http", "/mcp", [("authorization", "Bearer mongodb+srv://w")]⟩

/-- Dedicated credential header present but empty, bearer token alongside. -/
def reqEmptyDedicated : Request :=
  ⟨"http", "/mcp", [("mongodb-uri", ""), ("authorization", "Bearer mongodb://tok")]⟩

/-- A chunk whose source path is a `.jsonl` file (not a `.json` file). -/
def docJsonl : Document :=
  { source := "resources/stableclimgen/data.jsonl", resource_name := "stableclimgen",
    chunk_id := "0", file_hash := "h1", embedded_content := "ec1", page_content := "pc1" }

/-- A chunk from a plain-text file. -/
def docTxt : Document :=
  { source := "resources/stableclimgen/guide.txt", resource_name := "stableclimgen",
    chunk_id := "1", file_hash := "h2", embedded_content := "ec2", page_content := "pc2" }

/-- An embedder that always succeeds. -/
def embedOk : Embedder := fun _ => .ok [1, 2]

/-- An embedder that always fails (empty `data` payload). -/
def embedBad : Embedder := fun _ => .error "Bad embeddings payload"

/-- The record `create_db_entry_for_document embedOk docJsonl` produces. -/
def entryJsonl : DbEntry :=
  { resource_type := "example", resource_name := "stableclimgen",
    document := "resources/stableclimgen/data.jsonl", chunk_id := "0", file_hash := "h1",
    content := "pc1", embedded_content := "ec1", embedding := [1, 2] }

/-! # Helper lemmas -/

theorem pyStarts_iff {s pre : String} :
    pyStarts s pre = true ↔ ∃ t : String, s = pre ++ t := by
  unfold pyStarts
  rw [List.isPrefixOf_iff_prefix]
  constructor
  · rintro ⟨t, ht⟩
    refine ⟨String.mk t, ?_⟩
    apply String.ext
    rw [String.data_append]
    exact ht.symm
  · rintro ⟨t, rfl⟩
    exact ⟨t.data, rfl⟩

theorem pyLower_append (a b : String) : pyLower (a ++ b) = pyLower a ++ pyLower b := by
  apply String.ext
  show ((a ++ b).data.map pyLowerChar) = (a.data.map pyLowerChar) ++ (b.data.map pyLowerChar)
  rw [String.data_append, List.map_append]

theorem append_ne_empty_left {a b : String} (ha : a ≠ "") : (a ++ b) ≠ "" := by
  intro h
  apply ha
  have h2 := congrArg String.data h
  rw [String.data_append] at h2
  have hnil : ("" : String).data = [] := rfl
  rw [hnil] at h2
  apply String.ext
  rw [hnil]
  exact (List.append_eq_nil.mp h2).1

theorem pyDrop_bearer (c : String) : pyDrop 7 ("Bearer " ++ c) = c := by
  apply String.ext
  show ("Bearer " ++ c).data.drop 7 = c.data
  rw [String.data_append]
  exact List.drop_left' (by decide)

theorem extract_credential_bearer (headers : List (String × String)) (c : String)
    (hded : pyTruthy (pyDictGet headers MONGODB_URI_HDR) = false)
    (hauth : pyDictGet headers "authorization" = some ("Bearer " ++ c)) :
    extract_credential headers =
      (some (pyStrip c),
       headers.filter (fun p => !(pyLower p.1 == "authorization"))) := by
  have h1 : (("Bearer " ++ c) == "") = false :=
    beq_eq_false_iff_ne.mpr (append_ne_empty_left (by decide))
  have h2 : pyStarts (pyLower ("Bearer " ++ c)) "bearer " = true := by
    rw [pyLower_append]
    have hl : pyLower "Bearer " = "bearer " := by decide
    rw [hl]
    exact pyStarts_iff.mpr ⟨pyLower c, rfl⟩
  simp only [extract_credential, hded, Bool.false_eq_true, if_false, hauth, h1, h2,
    Bool.not_false, Bool.and_self, if_true, pyDrop_bearer]

theorem header_gate_forwarded_of (p : String) (r : Request) (c : String)
    (hs : List (String × String))
    (hrt : r.scopeType = "http") (hrp : r.path = p)
    (hex : extract_credential r.headers = (some c, hs))
    (hne : c ≠ "")
    (hst : (pyStarts c "mongodb://" || pyStarts c "mongodb+srv://") = true) :
    header_gate p r = .forwarded c hs := by
  unfold header_gate
  rw [hrt, hrp, hex]
  simp [beq_eq_false_iff_ne.mpr hne, hst]

/-! # Claim theorems: the tenant gate -/

/-- C1: for every HTTP request to the tool path, the gate invokes the inner
handler iff the extracted credential is non-empty and starts with an
accepted store URI scheme (`mongodb://` or `mongodb+srv://`); otherwise it
short-circuits with a 400 status and a structured error body carrying the
fixed numeric error code -32600, and the inner handler is never invoked. -/
theorem C1_gate_validation (p : String) (req : Request)
    (ht : req.scopeType = "http") (hp : req.path = p) :
    ((∃ c hs, header_gate p req = .forwarded c hs) ↔
      AcceptedCredential (extract_credential req.headers).1) ∧
    (¬ AcceptedCredential (extract_credential req.headers).1 →
      header_gate p req = .rejected 400 (-32600)) := by
  rcases hex : extract_credential req.headers with ⟨v, hs⟩
  cases v with
  | none =>
    have hg : header_gate p req = .rejected 400 (-32600) := by
      unfold header_gate
      rw [ht, hp, hex]
      simp
    rw [hg]
    simp [AcceptedCredential]
  | some s =>
    by_cases hb : (!(s == "") && (pyStarts s "mongodb://" || pyStarts s "mongodb+srv://")) = true
    · have hg : header_gate p req = .forwarded s hs := by
        unfold header_gate
        rw [ht, hp, hex]
        simp [hb]
      rw [Bool.and_eq_true, Bool.not_eq_true', beq_eq_false_iff_ne, Bool.or_eq_true] at hb
      have hacc : AcceptedCredential (some s) := by
        refine ⟨s, rfl, hb.1, ?_⟩
        rcases hb.2 with h | h
        · exact Or.inl (pyStarts_iff.mp h)
        · exact Or.inr (pyStarts_iff.mp h)
      rw [hg]
      constructor
      · exact iff_of_true ⟨s, hs, rfl⟩ hacc
      · intro hna
        exact absurd hacc hna
    · have hg : header_gate p req = .rejected 400 (-32600) := by
        unfold header_gate
        rw [ht, hp, hex]
        simp only [Bool.not_eq_true] at hb
        simp [hb]
      rw [hg]
      constructor
      · constructor
        · rintro ⟨c, hs', h⟩
          cases h
        · rintro ⟨s', hss', hne, hor⟩
          injection hss' with hss'
          subst hss'
          exfalso
          apply hb
          rw [Bool.and_eq_true, Bool.not_eq_true', beq_eq_false_iff_ne, Bool.or_eq_true]
          refine ⟨hne, ?_⟩
          rcases hor with ⟨t, rfl⟩ | ⟨t, rfl⟩
          · exact Or.inl (pyStarts_iff.mpr ⟨t, rfl⟩)
          · exact Or.inr (pyStarts_iff.mpr ⟨t, rfl⟩)
      · intro _
        rfl

/-- Witness for C1: a gated request with a valid dedicated credential
header is forwarded to the inner handler. -/
theorem C1_witness : ∃ c hs, header_gate "/mcp" reqDedicated = .forwarded c hs :=
  (C1_gate_validation "/mcp" reqDedicated rfl rfl).1.mpr
    ⟨"mongodb+srv://w", by decide, by decide, Or.inr ⟨"w", by decide⟩⟩

/-- C2: on the success path, the credential is published into the
ContextVar before the inner handler runs (the inner handler observes state
`some v`), and the ContextVar is restored to its prior value `s` when the
inner handler returns or raises — no exception path leaves the credential
set afterwards.  `inner` ranges over all state transformers, including all
raising ones, and the final state equals the prior state in every case. -/
theorem C2_context_scoping (v : String) (inner : PyM Unit) (s : Ctx) :
    (gate_invoke_inner v inner s).2 = s ∧
    (gate_invoke_inner v inner s).1 = (inner (some v)).1 := by
  unfold gate_invoke_inner ctxvar_set try_finally ctxvar_reset
  rcases h : inner (some v) with ⟨r, s1⟩
  cases r <;> simp [h]

/-- Counterexample to C3 as stated: the credential `"mongodb://h "`
(trailing blank) is valid — non-empty and starting with an accepted
scheme — yet carrying it only as a bearer token yields the accepted
credential `"mongodb://h"` (because the fallback path applies
`.strip()` to the token), which differs from the credential accepted on
the dedicated-header path. -/
theorem C3_counterexample :
    header_gate "/mcp" ⟨"http", "/mcp", [("authorization", "Bearer " ++ "mongodb://h ")]⟩ =
      GateOutcome.forwarded "mongodb://h" [] ∧
    header_gate "/mcp" ⟨"http", "/mcp", [("mongodb-uri", "mongodb://h ")]⟩ =
      GateOutcome.forwarded "mongodb://h " [("mongodb-uri", "mongodb://h ")] ∧
    ("mongodb://h" : String) ≠ "mongodb://h " ∧
    AcceptedCredential (some "mongodb://h ") :=
  ⟨by decide, by decide, by decide, ⟨"mongodb://h ", rfl, by decide, Or.inl ⟨"h ", by decide⟩⟩⟩

/-- C3 (amended): for every valid credential `c` that carries no
surrounding whitespace (`pyStrip c = c`), a request carrying `c` only as a
bearer token yields the same accepted credential as a request carrying `c`
in the dedicated header, and on the fallback path the authorization header
is removed from the headers forwarded to the inner handler. -/
theorem C3_amended_bearer (p : String) (r₁ r₂ : Request) (c : String)
    (h1t : r₁.scopeType = "http") (h1p : r₁.path = p)
    (h2t : r₂.scopeType = "http") (h2p : r₂.path = p)
    (hval : (∃ t, c = "mongodb://" ++ t) ∨ (∃ t, c = "mongodb+srv://" ++ t))
    (hws : pyStrip c = c)
    (h1d : pyDictGet r₁.headers MONGODB_URI_HDR = none)
    (h1a : pyDictGet r₁.headers "authorization" = some ("Bearer " ++ c))
    (h2d : pyDictGet r₂.headers MONGODB_URI_HDR = some c) :
    header_gate p r₁ =
      .forwarded c (r₁.headers.filter (fun q => !(pyLower q.1 == "authorization"))) ∧
    header_gate p r₂ = .forwarded c r₂.headers := by
  have hne : c ≠ "" := by
    rcases hval with ⟨t, rfl⟩ | ⟨t, rfl⟩
    · exact append_ne_empty_left (by decide)
    · exact append_ne_empty_left (by decide)
  have hst : (pyStarts c "mongodb://" || pyStarts c "mongodb+srv://") = true := by
    rw [Bool.or_eq_true]
    rcases hval with ⟨t, rfl⟩ | ⟨t, rfl⟩
    · exact Or.inl (pyStarts_iff.mpr ⟨t, rfl⟩)
    · exact Or.inr (pyStarts_iff.mpr ⟨t, rfl⟩)
  have hext1 : extract_credential r₁.headers =
      (some c, r₁.headers.filter (fun q => !(pyLower q.1 == "authorization"))) := by
    have h := extract_credential_bearer r₁.headers c (by rw [h1d]; rfl) h1a
    rw [hws] at h
    exact h
  have hext2 : extract_credential r₂.headers = (some c, r₂.headers) := by
    unfold extract_credential
    rw [h2d]
    have htr : pyTruthy (some c) = true := by
      simp [pyTruthy, beq_eq_false_iff_ne.mpr hne]
    simp only [htr, if_true]
  exact ⟨header_gate_forwarded_of p r₁ c _ h1t h1p hext1 hne hst,
         header_gate_forwarded_of p r₂ c _ h2t h2p hext2 hne hst⟩

/-- Witness for the amended C3 at the concrete credential
`mongodb+srv://w`. -/
theorem C3_amended_witness :
    header_gate "/mcp" reqBearer = .forwarded "mongodb+srv://w" [] ∧
    header_gate "/mcp" reqDedicated = .forwarded "mongodb+srv://w" reqDedicated.headers :=
  C3_amended_bearer "/mcp" reqBearer reqDedicated "mongodb+srv://w" rfl rfl rfl rfl
    (Or.inr ⟨"w", by decide⟩) (by decide) (by decide) (by decide) (by decide)

/-- C9: the bearer fallback is taken not only when the dedicated credential
header is absent but whenever its value is empty: for a gated request whose
`mongodb-uri` header is present with the empty value and which carries an
authorization header `Bearer <token>`, the gate uses the token as the
credential and strips the authorization header from the forwarded
request. -/
theorem C9_empty_header_fallback (p : String) (r : Request) (t : String)
    (hrt : r.scopeType = "http") (hrp : r.path = p)
    (hd : pyDictGet r.headers MONGODB_URI_HDR = some "")
    (ha : pyDictGet r.headers "authorization" = some ("Bearer " ++ t))
    (hws : pyStrip t = t)
    (hval : (∃ u, t = "mongodb://" ++ u) ∨ (∃ u, t = "mongodb+srv://" ++ u)) :
    extract_credential r.headers =
      (some t, r.headers.filter (fun q => !(pyLower q.1 == "authorization"))) ∧
    header_gate p r =
      .forwarded t (r.headers.filter (fun q => !(pyLower q.1 == "authorization"))) := by
  have hne : t ≠ "" := by
    rcases hval with ⟨u, rfl⟩ | ⟨u, rfl⟩
    · exact append_ne_empty_left (by decide)
    · exact append_ne_empty_left (by decide)
  have hst : (pyStarts t "mongodb://" || pyStarts t "mongodb+srv://") = true := by
    rw [Bool.or_eq_true]
    rcases hval with ⟨u, rfl⟩ | ⟨u, rfl⟩
    · exact Or.inl (pyStarts_iff.mpr ⟨u, rfl⟩)
    · exact Or.inr (pyStarts_iff.mpr ⟨u, rfl⟩)
  have hext : extract_credential r.headers =
      (some t, r.headers.filter (fun q => !(pyLower q.1 == "authorization"))) := by
    have h := extract_credential_bearer r.headers t (by rw [hd]; rfl) ha
    rw [hws] at h
    exact h
  exact ⟨hext, header_gate_forwarded_of p r t _ hrt hrp hext hne hst⟩

/-- Witness for C9: empty dedicated header plus `Bearer mongodb://tok`. -/
theorem C9_witness :
    extract_credential reqEmptyDedicated.headers =
      (some "mongodb://tok",
       reqEmptyDedicated.headers.filter (fun q => !(pyLower q.1 == "authorization"))) ∧
    header_gate "/mcp" reqEmptyDedicated =
      .forwarded "mongodb://tok"
        (reqEmptyDedicated.headers.filter (fun q => !(pyLower q.1 == "authorization"))) :=
  C9_empty_header_fallback "/mcp" reqEmptyDedicated "mongodb://tok" rfl rfl
    (by decide) (by decide) (by decide) (Or.inl ⟨"tok", by decide⟩)

/-! # The connection cache (C4) -/

theorem take_append_take {α : Type} (A B : List α) (cap : Nat) :
    (A ++ B.take cap).take cap = (A ++ B).take cap := by
  rw [List.take_append_eq_append_take, List.take_append_eq_append_take, List.take_take]
  congr 1
  rw [Nat.min_eq_left (Nat.sub_le cap A.length)]

theorem lruAcquire_miss (cap : Nat) (s : LruState) (k : String)
    (hfind : s.entries.find? (fun e => e.1 == k) = none)
    (hlen : s.entries.length ≤ cap) :
    lruAcquire cap s k = (s.next, ⟨((k, s.next) :: s.entries).take cap, s.next + 1⟩) := by
  unfold lruAcquire
  rw [hfind]
  have hent : (if cap < ((k, s.next) :: s.entries).length
      then ((k, s.next) :: s.entries).dropLast else ((k, s.next) :: s.entries)) =
      ((k, s.next) :: s.entries).take cap := by
    by_cases h : cap < ((k, s.next) :: s.entries).length
    · have hc : s.entries.length = cap := by
        simp only [List.length_cons] at h
        omega
      rw [if_pos h, List.dropLast_eq_take]
      simp [hc]
    · rw [if_neg h, List.take_of_length_le]
      simp only [List.length_cons] at h
      simp only [List.length_cons]
      omega
  simp only [hent]

theorem freshEntries_map_fst (ks : List String) :
    ∀ n0, (freshEntries n0 ks).map Prod.fst = ks.reverse := by
  induction ks with
  | nil => intro n0; rfl
  | cons k ks ih =>
    intro n0
    simp only [freshEntries, List.map_append, ih (n0 + 1), List.reverse_cons]
    rfl

theorem freshEntries_length (ks : List String) (n0 : Nat) :
    (freshEntries n0 ks).length = ks.length := by
  have h := congrArg List.length (freshEntries_map_fst ks n0)
  simpa using h

theorem freshEntries_snd_lt (ks : List String) :
    ∀ n0, ∀ p ∈ freshEntries n0 ks, p.2 < n0 + ks.length := by
  induction ks with
  | nil => intro n0 p hp; cases hp
  | cons k ks ih =>
    intro n0 p hp
    simp only [freshEntries, List.mem_append, List.mem_singleton] at hp
    rcases hp with hp | rfl
    · have := ih (n0 + 1) p hp
      simp only [List.length_cons]
      omega
    · simp only [List.length_cons]
      omega

theorem acquireAll_fresh (cap : Nat) (ks : List String) :
    ∀ s : LruState, ks.Nodup → (∀ k ∈ ks, k ∉ s.entries.map Prod.fst) →
    s.entries.length ≤ cap →
    (acquireAll cap s ks).entries = (freshEntries s.next ks ++ s.entries).take cap ∧
    (acquireAll cap s ks).next = s.next + ks.length := by
  induction ks with
  | nil =>
    intro s _ _ hlen
    constructor
    · simp only [freshEntries, List.nil_append]
      exact (List.take_of_length_le hlen).symm
    · rfl
  | cons k ks ih =>
    intro s hnd hfresh hlen
    have hndk : k ∉ ks := (List.nodup_cons.mp hnd).1
    have hndks : ks.Nodup := (List.nodup_cons.mp hnd).2
    have hkfst : k ∉ s.entries.map Prod.fst := hfresh k (List.mem_cons_self k ks)
    have hfind : s.entries.find? (fun e => e.1 == k) = none := by
      rw [List.find?_eq_none]
      intro e he hbeq
      apply hkfst
      have : e.1 = k := by simpa using hbeq
      rw [← this]
      exact List.mem_map_of_mem Prod.fst he
    have hstep := lruAcquire_miss cap s k hfind hlen
    have hAA : acquireAll cap s (k :: ks) =
        acquireAll cap ⟨((k, s.next) :: s.entries).take cap, s.next + 1⟩ ks := by
      show (List.foldl _ s (k :: ks)) = _
      rw [List.foldl_cons]
      congr 1
      rw [hstep]
    set s1 : LruState := ⟨((k, s.next) :: s.entries).take cap, s.next + 1⟩ with hs1
    have hfresh1 : ∀ k' ∈ ks, k' ∉ s1.entries.map Prod.fst := by
      intro k' hk' hmem
      have hmem2 : k' ∈ ((k, s.next) :: s.entries).map Prod.fst := by
        rw [List.map_take] at hmem
        exact List.mem_of_mem_take hmem
      simp only [List.map_cons] at hmem2
      rcases List.mem_cons.mp hmem2 with h | h
      · exact hndk (h ▸ hk')
      · exact hfresh k' (List.mem_cons_of_mem k hk') h
    have hlen1 : s1.entries.length ≤ cap := by
      simp only [hs1, List.length_take]
      omega
    have hih := ih s1 hndks hfresh1 hlen1
    rw [hAA]
    constructor
    · rw [hih.1]
      show (freshEntries (s.next + 1) ks ++ ((k, s.next) :: s.entries).take cap).take cap = _
      rw [take_append_take]
      simp only [freshEntries, List.append_assoc, List.singleton_append]
    · rw [hih.2]
      simp only [hs1, List.length_cons]
      omega

theorem find?_keys_nodup {l : List (String × Nat)} (hnd : (l.map Prod.fst).Nodup)
    {q : String × Nat} (hq : q ∈ l) : l.find? (fun e => e.1 == q.1) = some q := by
  induction l with
  | nil => cases hq
  | cons e l ih =>
    simp only [List.map_cons, List.nodup_cons] at hnd
    rw [List.find?_cons]
    by_cases he : e.1 = q.1
    · have : q = e := by
        rcases List.mem_cons.mp hq with h | h
        · exact h
        · exfalso
          apply hnd.1
          rw [he]
          exact List.mem_map_of_mem Prod.fst h
      rw [this, he]
      simp
    · have hbeq : (e.1 == q.1) = false := beq_eq_false_iff_ne.mpr he
      rw [hbeq]
      apply ih hnd.2
      rcases List.mem_cons.mp hq with h | h
      · exact absurd (h ▸ rfl) (Ne.symm he)
      · exact h

/-- C4: with connection-cache capacity `cap`, acquiring handles for
`cap + 1` distinct credential strings (`k0` first, then `rest`) evicts
exactly the least-recently-used entry: the cache afterwards holds exactly
the keys of `rest` in recency order, `k0` is gone.  A subsequent acquire
for the evicted `k0` is a miss that establishes a new connection — the
returned handle is the fresh identity `next`, different from every cached
handle — while an acquire for any still-cached credential returns the very
handle stored for it. -/
theorem C4_lru_eviction (cap : Nat) (hcap : 0 < cap) (k0 : String) (rest : List String)
    (hnd : (k0 :: rest).Nodup) (hlen : rest.length = cap) :
    ((acquireAll cap emptyLru (k0 :: rest)).entries.map Prod.fst = rest.reverse) ∧
    ((lruAcquire cap (acquireAll cap emptyLru (k0 :: rest)) k0).1 =
      (acquireAll cap emptyLru (k0 :: rest)).next) ∧
    (∀ p ∈ (acquireAll cap emptyLru (k0 :: rest)).entries,
      p.2 ≠ (acquireAll cap emptyLru (k0 :: rest)).next) ∧
    (∀ p ∈ (acquireAll cap emptyLru (k0 :: rest)).entries,
      (lruAcquire cap (acquireAll cap emptyLru (k0 :: rest)) p.1).1 = p.2) := by
  have hcap0 : 0 < cap := hcap
  have hfr := acquireAll_fresh cap (k0 :: rest) emptyLru hnd
    (by intro k hk hmem; simp [emptyLru] at hmem) (by simp [emptyLru])
  have hent : (acquireAll cap emptyLru (k0 :: rest)).entries = freshEntries 1 rest := by
    rw [hfr.1]
    show (freshEntries 0 (k0 :: rest) ++ []).take cap = _
    rw [List.append_nil]
    show (freshEntries 1 rest ++ [(k0, 0)]).take cap = _
    exact List.take_left' (by rw [freshEntries_length, hlen])
  have hnext : (acquireAll cap emptyLru (k0 :: rest)).next = cap + 1 := by
    rw [hfr.2]
    show 0 + (rest.length + 1) = cap + 1
    omega
  refine ⟨?_, ?_, ?_, ?_⟩
  · rw [hent, freshEntries_map_fst]
  · have hk0 : k0 ∉ rest := (List.nodup_cons.mp hnd).1
    have hfind : (acquireAll cap emptyLru (k0 :: rest)).entries.find?
        (fun e => e.1 == k0) = none := by
      rw [hent, List.find?_eq_none]
      intro e he hbeq
      have he1 : e.1 = k0 := by simpa using hbeq
      have hm : e.1 ∈ (freshEntries 1 rest).map Prod.fst := List.mem_map_of_mem _ he
      rw [freshEntries_map_fst, he1, List.mem_reverse] at hm
      exact hk0 hm
    unfold lruAcquire
    rw [hfind]
  · intro p hp
    rw [hent] at hp
    have hlt := freshEntries_snd_lt rest 1 p hp
    rw [hnext]
    omega
  · intro p hp
    have hndkeys : ((acquireAll cap emptyLru (k0 :: rest)).entries.map Prod.fst).Nodup := by
      rw [hent, freshEntries_map_fst]
      exact List.nodup_reverse.mpr (List.nodup_cons.mp hnd).2
    have hfind := find?_keys_nodup hndkeys hp
    unfold lruAcquire
    rw [hfind]

/-- Witness for C4 at capacity 2 with credentials a, b, c. -/
theorem C4_witness :
    ((acquireAll 2 emptyLru ("a" :: ["b", "c"])).entries.map Prod.fst = ["b", "c"].reverse) ∧
    ((lruAcquire 2 (acquireAll 2 emptyLru ("a" :: ["b", "c"])) "a").1 =
      (acquireAll 2 emptyLru ("a" :: ["b", "c"])).next) ∧
    (∀ p ∈ (acquireAll 2 emptyLru ("a" :: ["b", "c"])).entries,
      p.2 ≠ (acquireAll 2 emptyLru ("a" :: ["b", "c"])).next) ∧
    (∀ p ∈ (acquireAll 2 emptyLru ("a" :: ["b", "c"])).entries,
      (lruAcquire 2 (acquireAll 2 emptyLru ("a" :: ["b", "c"])) p.1).1 = p.2) :=
  C4_lru_eviction 2 (by decide) "a" ["b", "c"] (by decide) (by decide)

/-! # Ingestion (C5, C6, C10) -/

theorem create_entry_matches (embed : Embedder) (d : Document) (e : DbEntry)
    (h : create_db_entry_for_document embed d = .ok e) :
    matches_identity_and_hash d e = true ∧
    e.resource_type = (if pyContainsSub ".json" d.source then "example" else "document") := by
  unfold create_db_entry_for_document at h
  cases hm : embed d.embedded_content with
  | error err => rw [hm] at h; cases h
  | ok vec =>
    rw [hm] at h
    injection h with h
    subst h
    constructor
    · simp [matches_identity_and_hash]
    · rfl

theorem build_new_entries_all_of_ok (embed : Embedder) (l : List Document)
    (es : List DbEntry) (h : build_new_entries embed l = .ok es) :
    ∀ d ∈ l, ∃ v, embed d.embedded_content = .ok v := by
  induction l generalizing es with
  | nil => intro d hd; cases hd
  | cons d0 ds ih =>
    intro d hd
    unfold build_new_entries at h
    cases hc : create_db_entry_for_document embed d0 with
    | error e => rw [hc] at h; cases h
    | ok entry =>
      rw [hc] at h
      cases hb : build_new_entries embed ds with
      | error e => rw [hb] at h; cases h
      | ok es2 =>
        rcases List.mem_cons.mp hd with rfl | hd2
        · unfold create_db_entry_for_document at hc
          cases hm : embed d.embedded_content with
          | error err => rw [hm] at hc; cases hc
          | ok vec => exact ⟨vec, hm ▸ rfl⟩
        · exact ih es2 hb d hd2

theorem build_new_entries_length (embed : Embedder) (l : List Document)
    (es : List DbEntry) (h : build_new_entries embed l = .ok es) :
    es.length = l.length := by
  induction l generalizing es with
  | nil =>
    unfold build_new_entries at h
    injection h with h
    rw [← h]
    rfl
  | cons d0 ds ih =>
    unfold build_new_entries at h
    cases hc : create_db_entry_for_document embed d0 with
    | error e => rw [hc] at h; cases h
    | ok entry =>
      rw [hc] at h
      cases hb : build_new_entries embed ds with
      | error e => rw [hb] at h; cases h
      | ok es2 =>
        rw [hb] at h
        injection h with h
        rw [← h]
        simp [ih es2 hb]

theorem build_new_entries_covers (embed : Embedder) (l : List Document)
    (es : List DbEntry) (h : build_new_entries embed l = .ok es) :
    ∀ d ∈ l, ∃ e ∈ es, matches_identity_and_hash d e = true := by
  induction l generalizing es with
  | nil => intro d hd; cases hd
  | cons d0 ds ih =>
    intro d hd
    unfold build_new_entries at h
    cases hc : create_db_entry_for_document embed d0 with
    | error e => rw [hc] at h; cases h
    | ok entry =>
      rw [hc] at h
      cases hb : build_new_entries embed ds with
      | error e => rw [hb] at h; cases h
      | ok es2 =>
        rw [hb] at h
        injection h with h
        subst h
        rcases List.mem_cons.mp hd with rfl | hd2
        · exact ⟨entry, List.mem_cons_self entry es2, (create_entry_matches embed d entry hc).1⟩
        · obtain ⟨e, he, hme⟩ := ih es2 hb d hd2
          exact ⟨e, List.mem_cons_of_mem entry he, hme⟩

/-- C5: in one ingestion call, if the embedding call fails for any chunk
surviving the change filter, `store_documents_in_mongodb` raises and the
write log is empty — no records are written; and whenever the call
succeeds, every surviving chunk was embedded, at most one `insert_many`
batch write happened, the collection grew exactly by that batch, and the
batch contains one record per surviving chunk (all-or-nothing, at-most-once
insertion). -/
theorem C5_atomic_ingestion (embed : Embedder)
    (get_new : List Document → List DbEntry → List Document)
    (docs : List Document) (col : List DbEntry) :
    ((∃ d ∈ get_new docs col, ∀ v, embed d.embedded_content ≠ .ok v) →
      ∃ e, store_documents_in_mongodb embed get_new docs col = .error e) ∧
    (∀ col2 writes, store_documents_in_mongodb embed get_new docs col = .ok (col2, writes) →
      (∀ d ∈ get_new docs col, ∃ v, embed d.embedded_content = .ok v) ∧
      writes.length ≤ 1 ∧
      col2 = col ++ writes.flatten ∧
      (∀ b ∈ writes, b.length = (get_new docs col).length)) := by
  constructor
  · rintro ⟨d, hd, hfail⟩
    cases hb : build_new_entries embed (get_new docs col) with
    | error e =>
      refine ⟨e, ?_⟩
      simp only [store_documents_in_mongodb, hb]
    | ok es =>
      exfalso
      obtain ⟨v, hv⟩ := build_new_entries_all_of_ok embed _ es hb d hd
      exact hfail v hv
  · intro col2 writes h
    unfold store_documents_in_mongodb at h
    cases hb : build_new_entries embed (get_new docs col) with
    | error e => simp only [hb] at h; cases h
    | ok es =>
      simp only [hb] at h
      have hall := build_new_entries_all_of_ok embed _ es hb
      cases es with
      | nil =>
        simp only [List.isEmpty_nil, if_true] at h
        injection h with h
        injection h with h1 h2
        subst h1
        subst h2
        refine ⟨hall, by simp, by simp, by simp⟩
      | cons e0 es' =>
        simp only [List.isEmpty_cons, Bool.false_eq_true, if_false] at h
        injection h with h
        injection h with h1 h2
        subst h1
        subst h2
        refine ⟨hall, by simp, by simp, ?_⟩
        intro b hb2
        rcases List.mem_singleton.mp hb2 with rfl
        exact build_new_entries_length embed _ _ hb

/-- Witness for C5: a failing embedder on a surviving chunk makes the
ingestion call raise (hence write nothing). -/
theorem C5_witness :
    ∃ e, store_documents_in_mongodb embedBad (fun ds _ => ds) [docJsonl] [] = .error e :=
  (C5_atomic_ingestion embedBad (fun ds _ => ds) [docJsonl] []).1
    ⟨docJsonl, by simp, fun v h => by cases h⟩

/-- C6: when one ingestion run succeeds, re-running the ingestion on the
same (unchanged) chunk set against the resulting collection performs no
store write at all: the change detector finds every chunk already recorded
with its fingerprint, returns no new-or-changed chunks, and the guarded
`insert_many` is skipped — zero new records. -/
theorem C6_reingest_no_write (embed : Embedder) (docs : List Document)
    (col col1 : List DbEntry) (writes1 : List (List DbEntry))
    (h : store_documents_in_mongodb embed get_new_or_changes_documents docs col =
      .ok (col1, writes1)) :
    store_documents_in_mongodb embed get_new_or_changes_documents docs col1 =
      .ok (col1, []) := by
  unfold store_documents_in_mongodb at h
  cases hb : build_new_entries embed (get_new_or_changes_documents docs col) with
  | error e => simp only [hb] at h; cases h
  | ok es =>
    simp only [hb] at h
    have hcov := build_new_entries_covers embed _ es hb
    have hsub : ∀ e ∈ es, e ∈ col1 := by
      intro e he
      cases hes : es with
      | nil => rw [hes] at he; cases he
      | cons e0 es' =>
        rw [hes] at h
        simp only [List.isEmpty_cons, Bool.false_eq_true, if_false] at h
        injection h with h
        injection h with h1 h2
        rw [← h1, ← hes]
        exact List.mem_append_right col he
    have hcolsub : ∀ r ∈ col, r ∈ col1 := by
      intro r hr
      cases hes : es with
      | nil =>
        rw [hes] at h
        simp only [List.isEmpty_nil, if_true] at h
        injection h with h
        injection h with h1 h2
        rw [← h1]
        exact hr
      | cons e0 es' =>
        rw [hes] at h
        simp only [List.isEmpty_cons, Bool.false_eq_true, if_false] at h
        injection h with h
        injection h with h1 h2
        rw [← h1]
        exact List.mem_append_left _ hr
    have hkey : get_new_or_changes_documents docs col1 = [] := by
      unfold get_new_or_changes_documents
      rw [List.filter_eq_nil_iff]
      intro d hd hpred
      simp only [Bool.not_eq_true'] at hpred
      have hany : (col1.any fun r => matches_identity_and_hash d r) = true := by
        rw [List.any_eq_true]
        by_cases hc : (col.any fun r => matches_identity_and_hash d r) = true
        · obtain ⟨r, hr, hmr⟩ := List.any_eq_true.mp hc
          exact ⟨r, hcolsub r hr, hmr⟩
        · have hdnew : d ∈ get_new_or_changes_documents docs col := by
            unfold get_new_or_changes_documents
            rw [List.mem_filter]
            refine ⟨hd, ?_⟩
            simp only [Bool.not_eq_true']
            exact Bool.eq_false_iff.mpr hc
          obtain ⟨e, he, hme⟩ := hcov d hdnew
          exact ⟨e, hsub e he, hme⟩
      rw [hany] at hpred
      cases hpred
    simp only [store_documents_in_mongodb, hkey]
    rfl

/-- Witness for C6: a first run from the empty collection inserts one
record; the second run inserts nothing. -/
theorem C6_witness :
    store_documents_in_mongodb embedOk get_new_or_changes_documents [docJsonl] [entryJsonl] =
      .ok ([entryJsonl], []) :=
  C6_reingest_no_write embedOk [docJsonl] [] [entryJsonl] [[entryJsonl]] (by rfl)

theorem pyContainsSub_iff (needle hay : String) :
    pyContainsSub needle hay = true ↔ ∃ pre post : String, hay = pre ++ needle ++ post := by
  unfold pyContainsSub
  rw [List.any_eq_true]
  constructor
  · rintro ⟨i, hi, hp⟩
    rw [List.isPrefixOf_iff_prefix] at hp
    obtain ⟨rest, hrest⟩ := hp
    refine ⟨String.mk (hay.toList.take i), String.mk rest, ?_⟩
    apply String.ext
    show hay.data = _
    rw [String.data_append, String.data_append]
    show hay.data = (hay.data.take i ++ needle.data) ++ rest
    rw [List.append_assoc]
    have h2 : needle.data ++ rest = hay.data.drop i := hrest
    rw [h2, List.take_append_drop]
  · rintro ⟨pre, post, hph⟩
    refine ⟨pre.data.length, ?_, ?_⟩
    · rw [List.mem_range]
      show pre.data.length < hay.data.length + 1
      have hlen := congrArg (fun s => s.data.length) hph
      simp only [String.data_append, List.length_append] at hlen
      omega
    · rw [List.isPrefixOf_iff_prefix]
      have hdata : hay.toList = pre.data ++ (needle.data ++ post.data) := by
        have := congrArg String.data hph
        rw [String.data_append, String.data_append, List.append_assoc] at this
        exact this
      rw [hdata, List.drop_left]
      exact List.prefix_append _ _

/-- C10: the category classification is a pure substring test: for every
record a successful `create_db_entry_for_document` produces, its
`resource_type` is `"example"` iff the string `".json"` occurs anywhere in
the source path (as a substring decomposition `pre ++ ".json" ++ post`),
and `"document"` otherwise — so a path such as `data.jsonl`, or one with
`.json` inside a directory component, is classified `"example"` even when
the file is not a `.json` file. -/
theorem C10_category_substring (embed : Embedder) (d : Document) (e : DbEntry)
    (h : create_db_entry_for_document embed d = .ok e) :
    (e.resource_type = "example" ↔ ∃ pre post : String, d.source = pre ++ ".json" ++ post) ∧
    (e.resource_type = "document" ↔
      ¬ ∃ pre post : String, d.source = pre ++ ".json" ++ post) := by
  have htype := (create_entry_matches embed d e h).2
  by_cases hc : pyContainsSub ".json" d.source = true
  · rw [hc] at htype
    simp only [if_true] at htype
    rw [htype]
    constructor
    · exact iff_of_true rfl (pyContainsSub_iff ".json" d.source |>.mp hc)
    · constructor
      · intro hed
        exact absurd hed (by decide)
      · intro hnot
        exact absurd (pyContainsSub_iff ".json" d.source |>.mp hc) hnot
  · rw [Bool.eq_false_iff.mpr hc] at htype
    simp only [Bool.false_eq_true, if_false] at htype
    rw [htype]
    have hnot : ¬ ∃ pre post : String, d.source = pre ++ ".json" ++ post := by
      intro hex
      exact hc ((pyContainsSub_iff ".json" d.source).mpr hex)
    constructor
    · constructor
      · intro hed
        exact absurd hed (by decide)
      · intro hex
        exact absurd hex hnot
    · exact iff_of_true rfl hnot

/-- Witness for C10: the `.jsonl` source path of `docJsonl` decomposes
around `".json"`, so its record is classified `"example"` although the
file is not a `.json` file. -/
theorem C10_witness :
    (create_db_entry_for_document embedOk docJsonl = .ok entryJsonl) ∧
    (entryJsonl.resource_type = "example" ↔
      ∃ pre post : String, docJsonl.source = pre ++ ".json" ++ post) ∧
    (∃ pre post : String, docJsonl.source = pre ++ ".json" ++ post) :=
  ⟨by rfl,
   (C10_category_substring embedOk docJsonl entryJsonl (by rfl)).1,
   ⟨"resources/stableclimgen/data", "l", by rfl⟩⟩

/-! # The query engine (C7) -/

/-- C7: for every query whose embedding succeeds, if the store contains no
resource categories (empty store), or if categories exist but every
category similarity search yields no results, `get_query_results` returns
the sentinel `"No content found."` instead of raising. -/
theorem C7_sentinel (embed : Embedder)
    (vector_search : List Int → String → String → List QueryHit)
    (col : List DbEntry) (q rn : String) (qv : List Int)
    (hq : embed q = .ok qv) :
    (col = [] → get_query_results embed vector_search col q rn = .ok "No content found.") ∧
    ((∀ t ∈ distinct_resource_types col, vector_search qv t rn = []) →
      get_query_results embed vector_search col q rn = .ok "No content found.") := by
  constructor
  · intro hcol
    subst hcol
    unfold get_query_results
    rw [hq]
    rfl
  · intro hall
    unfold get_query_results
    rw [hq]
    cases hdt : distinct_resource_types col with
    | nil => rfl
    | cons t ts =>
      simp only [List.map_cons, List.isEmpty_cons, Bool.false_eq_true, if_false]
      have hmerged : ((t :: ts).map fun u => vector_search qv u rn).flatten = [] := by
        rw [List.flatten_eq_nil_iff]
        intro l hl
        rw [List.mem_map] at hl
        obtain ⟨u, hu, rfl⟩ := hl
        rw [← hdt] at hu
        exact hall u hu
      simp only [List.map_cons] at hmerged
      unfold postprocessing_query_result
      rw [hmerged]
      rfl

/-- Witness for C7 on the empty store with a trivial search. -/
theorem C7_witness :
    ([] = ([] : List DbEntry) →
      get_query_results embedOk (fun _ _ _ => []) [] "q" "stableclimgen" =
        .ok "No content found.") ∧
    ((∀ t ∈ distinct_resource_types ([] : List DbEntry),
        (fun (_ : List Int) (_ : String) (_ : String) => ([] : List QueryHit)) [1, 2] t
          "stableclimgen" = []) →
      get_query_results embedOk (fun _ _ _ => []) [] "q" "stableclimgen" =
        .ok "No content found.") :=
  C7_sentinel embedOk (fun _ _ _ => []) [] "q" "stableclimgen" [1, 2] (by rfl)

/-! # The tool endpoint (C8) -/

/-- C8: `get_context_from_resources` returns (not raises) a user-facing
rejection naming the resource when the requested resource is not in the
statically configured supported set; and when the resource is supported,
the destructive-clear path is inactive (flag off, or a usable credential
in context) and the source directory does not exist, it returns (not
raises) a user-facing not-found message naming the directory. -/
theorem C8_endpoint_rejections (clear_flag : Bool) (ctx_uri : Option String)
    (is_dir : String → Bool) (run_pipeline : String → String → Except String String)
    (question resources : String) :
    (AVAILABLE_LIBRARIES.contains resources = false →
      get_context_from_resources clear_flag ctx_uri is_dir run_pipeline question resources =
        .ok ("Library \x27" ++ resources ++ "\x27 is not supported.")) ∧
    (AVAILABLE_LIBRARIES.contains resources = true →
      (clear_flag = false ∨ pyTruthy ctx_uri = true) →
      is_dir (RESOURCE_DIRECTORY ++ "/" ++ resources) = false →
      get_context_from_resources clear_flag ctx_uri is_dir run_pipeline question resources =
        .ok ("Resource directory not found: " ++ (RESOURCE_DIRECTORY ++ "/" ++ resources))) := by
  constructor
  · intro hno
    unfold get_context_from_resources
    rw [hno]
    rfl
  · intro hyes hclear hdir
    unfold get_context_from_resources
    rw [hyes]
    have hcl : (clear_flag && !(pyTruthy ctx_uri)) = false := by
      rcases hclear with h | h
      · rw [h, Bool.false_and]
      · rw [h, Bool.not_true, Bool.and_false]
    rw [hcl]
    simp only [Bool.not_true, Bool.false_eq_true, if_false, hdir, Bool.not_false, if_true]

/-- Witness for C8: an unsupported library is rejected with a message
naming it, and a supported library with a missing directory gets the
not-found message naming the directory. -/
theorem C8_witness :
    (get_context_from_resources false none (fun _ => false) (fun _ _ => .ok "ctx") "q"
        "numpy" =
      .ok ("Library \x27" ++ "numpy" ++ "\x27 is not supported.")) ∧
    (get_context_from_resources false none (fun _ => false) (fun _ _ => .ok "ctx") "q"
        "stableclimgen" =
      .ok ("Resource directory not found: " ++ (RESOURCE_DIRECTORY ++ "/" ++ "stableclimgen"))) :=
  ⟨(C8_endpoint_rejections false none (fun _ => false) (fun _ _ => .ok "ctx") "q" "numpy").1
      (by rfl),
   (C8_endpoint_rejections false none (fun _ => false) (fun _ _ => .ok "ctx") "q"
      "stableclimgen").2 (by rfl) (Or.inl rfl) (by rfl)⟩
